import Mathlib

/-
Verification development for the Markdown chunking pipeline of
src/ingestion/chunking.py (class MarkdownHeaderChunker).

Python strings are modelled as Lean `String` (a list of characters in this
toolchain), Python dicts with string keys as insertion-ordered association
lists with unique keys, and the two external capabilities (the langchain
MarkdownHeaderTextSplitter and the semantic-chunkers StatisticalChunker)
as, respectively, an explicit line-based model of the library and an
abstract function parameter.
-/

-- ### Python string primitives, modelled over the character list

/-- Model of Python str.strip(): drop whitespace from both ends. -/
def pyStrip (s : String) : String :=
  ⟨((s.data.dropWhile Char.isWhitespace).reverse.dropWhile Char.isWhitespace).reverse⟩

/-- Helper for splitting a character list on a separator character,
keeping empty pieces, as Python str.split(sep) does. -/
def splitCharAux (c : Char) : List Char → List Char → List (List Char)
  | [], acc => [acc.reverse]
  | x :: xs, acc =>
    if x = c then acc.reverse :: splitCharAux c xs []
    else splitCharAux c xs (x :: acc)

/-- Model of Python s.split(c) for a one-character separator:
keeps empty pieces, and the empty string yields [""]. -/
def pySplitChar (c : Char) (s : String) : List String :=
  (splitCharAux c s.data []).map (fun l => ⟨l⟩)

/-- Model of Python s.startswith(pre). -/
def pyStartsWith (s pre : String) : Bool :=
  List.isPrefixOf pre.data s.data

/-- Model of Python s[n:] (drop the first n characters). -/
def pyDrop (s : String) (n : Nat) : String :=
  ⟨s.data.drop n⟩

/-- Model of Python "sep".join(pieces). -/
def pyJoin (sep : String) (pieces : List String) : String :=
  ⟨List.intercalate sep.data (pieces.map String.data)⟩

/-- Model of Python s.replace("\x00", ""): delete every null character. -/
def removeNulls (s : String) : String :=
  ⟨s.data.filter (fun c => c ≠ '\x00')⟩

/-- Parse a nonempty all-digit character list as a number. -/
def digitsToNat? : List Char → Option Nat
  | [] => none
  | l => l.foldl (fun acc? c =>
      match acc? with
      | none => none
      | some acc => if c.isDigit then some (acc * 10 + (c.toNat - 48)) else none)
      (some 0)

/-- Model of Python int(s) on the inputs this code can see: an optional
sign followed by one or more decimal digits; anything else raises
ValueError, modelled as `none`. -/
def pyInt? (s : String) : Option Int :=
  match s.data with
  | '-' :: rest => (digitsToNat? rest).map (fun n => -(n : Int))
  | '+' :: rest => (digitsToNat? rest).map (fun n => (n : Int))
  | l => (digitsToNat? l).map (fun n => (n : Int))

-- ### Python dicts with string keys, as insertion-ordered association lists

/-- Model of d.get(k): first binding of k, if any. -/
def dictGet? : List (String × String) → String → Option String
  | [], _ => none
  | (k', v) :: rest, k => if k' = k then some v else dictGet? rest k

/-- Model of d[k] = v: update in place keeping the key's position,
otherwise append at the end. -/
def dictInsert : List (String × String) → String → String → List (String × String)
  | [], k, v => [(k, v)]
  | (k', v') :: rest, k, v =>
    if k' = k then (k, v) :: rest else (k', v') :: dictInsert rest k v

/-- Model of d.pop(k) restricted to its effect on the mapping. -/
def dictRemove (d : List (String × String)) (k : String) : List (String × String) :=
  d.filter (fun kv => kv.1 ≠ k)

/-- Model of the Python dict merge expression with a's entries first and
b's entries overriding, as in the source's parent/child metadata merge. -/
def dictUpdate (a b : List (String × String)) : List (String × String) :=
  b.foldl (fun acc kv => dictInsert acc kv.1 kv.2) a

-- ### The langchain Document

/-- Model of langchain.schema.Document as used by chunking.py: a text body
and a string-keyed metadata dict. -/
structure Document where
  page_content : String
  metadata : List (String × String)
deriving Repr, DecidableEq

-- ### Model of the external langchain MarkdownHeaderTextSplitter
--
-- chunking.py instantiates MarkdownHeaderTextSplitter(headers_to_split_on,
-- strip_headers=False) and calls split_text. The library splits the text
-- into lines, strips each line, treats a stripped line as a header when it
-- equals a configured separator or starts with the separator followed by a
-- space, tracks a header stack keyed by the count of the character # in
-- the separator, flushes the running content at header lines and at blank
-- lines, keeps the header line in the content (strip_headers=False), and
-- finally aggregates consecutive pieces carrying equal metadata, joining
-- their contents with a two-space-newline separator. Code-fence handling
-- and the non-printable-character filter of some library versions are not
-- modelled; no claim exercises them.

/-- State of the line loop of split_text: emitted (content, metadata)
pieces, the running content lines, the metadata attached to the running
content, the header stack (top at the head; the library keeps the top at
the end of a Python list, which only affects the pop loop below), and the
metadata the next lines will carry. -/
structure MHState where
  linesWithMeta : List (String × List (String × String))
  currentContent : List String
  currentMeta : List (String × String)
  headerStack : List (Nat × String)
  initialMeta : List (String × String)
deriving Repr

/-- Whether a stripped line is recognized as the header separator sep:
the library tests startswith(sep) and then either end-of-line or a space,
which is equivalent to equality with sep or startswith(sep ++ " "). -/
def lineIsHeader (stripped sep : String) : Bool :=
  stripped == sep || pyStartsWith stripped (sep ++ " ")

/-- First configured (separator, name) pair matching the stripped line. -/
def findHeaderMatch (seps : List (String × String)) (stripped : String) :
    Option (String × String) :=
  seps.find? (fun p => lineIsHeader stripped p.1)

/-- Header level the library assigns to a separator: the count of the
character # occurring in it. -/
def sepLevel (sep : String) : Nat :=
  sep.data.count '#'

/-- Pop stack entries whose level is at least the incoming level, removing
each popped header's name from the pending metadata. -/
def popHeaders : List (Nat × String) → Nat → List (String × String) →
    List (Nat × String) × List (String × String)
  | [], _, im => ([], im)
  | (l, n) :: rest, level, im =>
    if level ≤ l then popHeaders rest level (dictRemove im n)
    else ((l, n) :: rest, im)

/-- Flush the running content as one (content, metadata) piece, joining
the content lines with a newline; no piece is emitted when empty. -/
def flushContent (st : MHState) : List (String × List (String × String)) :=
  if st.currentContent.isEmpty then st.linesWithMeta
  else st.linesWithMeta ++ [(pyJoin "\n" st.currentContent, st.currentMeta)]

/-- One iteration of the line loop of split_text. -/
def processLine (seps : List (String × String)) (st : MHState) (line : String) :
    MHState :=
  let stripped := pyStrip line
  let st' : MHState :=
    match findHeaderMatch seps stripped with
    | some (sep, name) =>
      let level := sepLevel sep
      let (stack', im') := popHeaders st.headerStack level st.initialMeta
      let data := pyStrip (pyDrop stripped sep.data.length)
      { linesWithMeta := flushContent st
        currentContent := [stripped]
        currentMeta := st.currentMeta
        headerStack := (level, name) :: stack'
        initialMeta := dictInsert im' name data }
    | none =>
      if stripped ≠ "" then { st with currentContent := st.currentContent ++ [stripped] }
      else if st.currentContent.isEmpty then st
      else { st with linesWithMeta := flushContent st, currentContent := [] }
  { st' with currentMeta := st'.initialMeta }

/-- Aggregation loop: merge each piece into the previous one when their
metadata dicts are equal, joining contents with two spaces and a newline. -/
def aggregateAux (cur : Document) : List (String × List (String × String)) →
    List Document
  | [] => [cur]
  | (c, m) :: rest =>
    if cur.metadata = m then
      aggregateAux ⟨cur.page_content ++ "  \n" ++ c, cur.metadata⟩ rest
    else cur :: aggregateAux ⟨c, m⟩ rest

/-- Model of aggregate_lines_to_chunks. -/
def aggregateLines : List (String × List (String × String)) → List Document
  | [] => []
  | (c, m) :: rest => aggregateAux ⟨c, m⟩ rest

/-- Model of MarkdownHeaderTextSplitter(seps, strip_headers=False).split_text. -/
def markdownSplitText (seps : List (String × String)) (text : String) :
    List Document :=
  let lines := pySplitChar '\n' text
  let st := lines.foldl (processLine seps) ⟨[], [], [], [], []⟩
  aggregateLines (flushContent st)

-- ### chunking.py proper

/-- Configuration for the MarkdownHeaderChunker (a plain dataclass; the
source performs no validation of any field). -/
structure MarkdownChunkerConfig where
  max_chunk_size : Int
  min_chunk_size : Int
  max_header_level : Int
deriving Repr, DecidableEq

/-- Dataclass defaults: max_chunk_size=2000, min_chunk_size=500,
max_header_level=6. -/
def defaultConfig : MarkdownChunkerConfig := ⟨2000, 500, 6⟩

/-- Python exceptions this module can surface: the NameError raised by
the call to the undefined process_markdown_headers, and a generic
exception standing for anything the external semantic capability raises. -/
inductive PyErr
  | nameError
  | exn
deriving Repr, DecidableEq

/-- The external semantic-chunking capability (StatisticalChunker built
over the encoder): given min_split_tokens, max_split_tokens and one text,
it either raises or returns, per input document, a list of split groups,
each group a list of text pieces. chunking.py passes a single document
and reads only the first entry. -/
def SemanticCap : Type :=
  Int → Int → String → Except PyErr (List (List (List String)))

namespace MarkdownHeaderChunker

/-- Model of the separator string the source builds for every level:
f-string braces are doubled in the source, so the expression between them
is never evaluated and each separator is this same nine-character literal
(brace, quote, hash, quote, space, asterisk, space, the letter i, brace)
rather than a run of hash marks. -/
def headerSeparatorLiteral : String := "\x7b\x27#\x27 * i\x7d"

/-- Model of the headers_to_split_on list built in split_by_headers:
one (separator, "Header i") pair for each i in 1..level, every pair
carrying the same literal separator. -/
def headers_to_split_on (level : Int) : List (String × String) :=
  (List.range level.toNat).map
    (fun j => (headerSeparatorLiteral, "Header " ++ toString (j + 1)))

/-- Recursion core of split_by_headers, structurally recursive on the
remaining depth budget (the source recursion increases level by one per
call and bottoms out as soon as level exceeds max_header_level, so the
budget max_header_level + 1 - level decreases to zero). -/
def splitByHeadersGo (cfg : MarkdownChunkerConfig) :
    Nat → String → Int → List Document
  | 0, text, _ => [⟨text, []⟩]
  | fuel + 1, text, level =>
    let seps := headers_to_split_on level
    (markdownSplitText seps text).flatMap (fun doc =>
      if (doc.page_content.length : Int) > cfg.max_chunk_size then
        (splitByHeadersGo cfg fuel doc.page_content (level + 1)).map
          (fun sub => ⟨sub.page_content, dictUpdate doc.metadata sub.metadata⟩)
      else [doc])

/-- Model of split_by_headers(text, level): return the text as a single
metadata-free document once level exceeds max_header_level; otherwise
split with the configured separators, recurse one level deeper on each
oversized piece and merge the parent metadata under the child's. -/
def split_by_headers (cfg : MarkdownChunkerConfig) (text : String)
    (level : Int) : List Document :=
  splitByHeadersGo cfg (cfg.max_header_level + 1 - level).toNat text level

/-- Processing the groups returned for the one submitted document:
join each group's pieces, delete null characters, strip surrounding
whitespace, drop groups that become empty, and attach the original
chunk's metadata to each survivor. -/
def groupsToDocs (meta : List (String × String)) (groups : List (List String)) :
    List Document :=
  groups.filterMap (fun g =>
    let content := pyStrip (removeNulls (pyJoin "" g))
    if content = "" then none else some ⟨content, meta⟩)

/-- Model of split_semantically: call the capability on the chunk's
content; on any exception return the original chunk, on a result take the
first document's groups, process them, and fall back to the original
chunk when nothing usable remains. -/
def split_semantically (cfg : MarkdownChunkerConfig) (cap : SemanticCap)
    (c : Document) : List Document :=
  match cap cfg.min_chunk_size cfg.max_chunk_size c.page_content with
  | Except.error _ => [c]
  | Except.ok semanticSplits =>
    match semanticSplits with
    | [] => [c]
    | groups :: _ =>
      let newDocs := groupsToDocs c.metadata groups
      if newDocs.isEmpty then [c] else newDocs

/-- Model of split_oversized_chunks: chunks over max_chunk_size are
replaced by their semantic split, the rest pass through. -/
def split_oversized_chunks (cfg : MarkdownChunkerConfig) (cap : SemanticCap) :
    List Document → List Document
  | [] => []
  | c :: rest =>
    (if (c.page_content.length : Int) > cfg.max_chunk_size then
      split_semantically cfg cap c
    else [c]) ++ split_oversized_chunks cfg cap rest

/-- Model of get_common_metadata: the entries of the first dict whose key
starts with "Header " and whose value the second dict maps the same key
to. -/
def get_common_metadata (m1 m2 : List (String × String)) :
    List (String × String) :=
  m1.filter (fun kv => pyStartsWith kv.1 "Header " && dictGet? m2 kv.1 == some kv.2)

/-- Loop of combine_undersized_chunks, carrying the running buffer. -/
def combineLoop (cfg : MarkdownChunkerConfig) (buffer : Document) :
    List Document → List Document
  | [] => [buffer]
  | next :: rest =>
    if (buffer.page_content.length : Int) < cfg.min_chunk_size ∧
        (buffer.page_content.length : Int) + (next.page_content.length : Int) ≤
          cfg.max_chunk_size then
      combineLoop cfg
        ⟨buffer.page_content ++ "\n\n" ++ next.page_content,
          get_common_metadata buffer.metadata next.metadata⟩ rest
    else buffer :: combineLoop cfg next rest

/-- Model of combine_undersized_chunks: empty input gives an empty
output; otherwise run the merge loop starting from the first chunk. -/
def combine_undersized_chunks (cfg : MarkdownChunkerConfig) :
    List Document → List Document
  | [] => []
  | c :: rest => combineLoop cfg c rest

end MarkdownHeaderChunker

-- ### Header metadata parsing and finalization

/-- Model of Python tuple comparison on (level, title) pairs, as used by
sorted(): lexicographic on the level first, then the title (string order
here is the code-point lexicographic order, as in Python). -/
def headerLe (a b : Int × String) : Prop :=
  a.1 < b.1 ∨ (a.1 = b.1 ∧ a.2 ≤ b.2)

instance : DecidableRel headerLe := fun a b => by
  unfold headerLe; infer_instance

namespace MarkdownHeaderChunker

/-- Body of the loop of parse_headers_from_metadata on one metadata
entry: keys starting with "Header " contribute (int(key.split(" ")[1]),
value); a missing second word (IndexError) or a non-numeric one
(ValueError) is caught and the entry skipped, modelled by none. -/
def parseHeaderEntry (kv : String × String) : Option (Int × String) :=
  if pyStartsWith kv.1 "Header " then
    match (pySplitChar ' ' kv.1).get? 1 with
    | some w =>
      match pyInt? w with
      | some n => some (n, kv.2)
      | none => none
    | none => none
  else none

/-- Model of parse_headers_from_metadata: collect the parseable header
entries and return them sorted as Python sorted() sorts pairs. -/
def parse_headers_from_metadata (metadata : List (String × String)) :
    List (Int × String) :=
  List.insertionSort headerLe (metadata.filterMap parseHeaderEntry)

/-- Model of finalize_chunk_metadata. On an empty list the loop never
runs and the empty list is returned. On a non-empty list the first
iteration parses the parent headers and then calls
process_markdown_headers, a name that is neither defined nor imported
anywhere in the repository, so the call raises NameError. -/
def finalize_chunk_metadata : List Document → Except PyErr (List Document)
  | [] => Except.ok []
  | c :: _ =>
    let _ := parse_headers_from_metadata c.metadata
    Except.error PyErr.nameError

/-- Model of MarkdownHeaderChunker.chunk: the four stages in order. -/
def chunk (cfg : MarkdownChunkerConfig) (cap : SemanticCap) (text : String) :
    Except PyErr (List Document) :=
  let headerSplitChunks := split_by_headers cfg text 1
  let semanticallySplitChunks := split_oversized_chunks cfg cap headerSplitChunks
  let combinedChunks := combine_undersized_chunks cfg semanticallySplitChunks
  finalize_chunk_metadata combinedChunks

end MarkdownHeaderChunker

-- ### Order facts about headerLe

instance : IsTrans (Int × String) headerLe := by
  constructor
  intro a b c hab hbc
  rcases hab with h1 | ⟨h1, h1'⟩ <;> rcases hbc with h2 | ⟨h2, h2'⟩
  · exact Or.inl (lt_trans h1 h2)
  · exact Or.inl (h2 ▸ h1)
  · exact Or.inl (h1 ▸ h2)
  · exact Or.inr ⟨h1.trans h2, le_trans h1' h2'⟩

instance : IsTotal (Int × String) headerLe := by
  constructor
  intro a b
  rcases lt_trichotomy a.1 b.1 with h | h | h
  · exact Or.inl (Or.inl h)
  · rcases le_total a.2 b.2 with h' | h'
    · exact Or.inl (Or.inr ⟨h, h'⟩)
    · exact Or.inr (Or.inr ⟨h.symm, h'⟩)
  · exact Or.inr (Or.inl h)

-- ### Concrete capabilities used to instantiate theorems

open MarkdownHeaderChunker

/-- A semantic capability that raises on every call. -/
def capErr : SemanticCap := fun _ _ _ => Except.error PyErr.exn

/-- A semantic capability whose only group strips to nothing. -/
def capEmptyGroups : SemanticCap := fun _ _ _ => Except.ok [[[""]]]

/-- A semantic capability returning one usable group and one group that
strips to nothing. -/
def capTwoGroups : SemanticCap := fun _ _ _ => Except.ok [[["hi "], ["\x00"]]]

-- ### Claim theorems

/-- C1: the claim says split_by_headers(text, level) partitions the text
along Markdown header boundaries with markers of one to level hash
marks and tags fragments with the captured header levels and titles. It
does not: the doubled f-string braces make every configured separator
the same nine-character literal, which is not a hash-mark run, so a
document with real Markdown headers comes back as a single fragment
carrying no header metadata at all. -/
theorem c1_header_markers_never_match :
    headers_to_split_on 2 =
      [(headerSeparatorLiteral, "Header 1"), (headerSeparatorLiteral, "Header 2")] ∧
    headerSeparatorLiteral ≠ "#" ∧
    headerSeparatorLiteral ≠ "##" ∧
    split_by_headers defaultConfig "# A\ntext1\n## B\ntext2" 1 =
      [⟨"# A\ntext1\n## B\ntext2", []⟩] := by
  refine ⟨by decide, by decide, by decide, by decide⟩

/-- C2: metadata finalization raises NameError on every non-empty chunk
list (process_markdown_headers is defined nowhere in the repository), so
chunk() never returns successfully with a non-empty result. -/
theorem c2_finalization_always_raises :
    (∀ (c : Document) (cs : List Document),
      finalize_chunk_metadata (c :: cs) = Except.error PyErr.nameError) ∧
    (∀ cfg cap text res, chunk cfg cap text = Except.ok res → res = []) := by
  constructor
  · intro c cs; rfl
  · intro cfg cap text res h
    unfold chunk at h
    simp only [] at h
    cases hc : combine_undersized_chunks cfg
        (split_oversized_chunks cfg cap (split_by_headers cfg text 1)) with
    | nil =>
      rw [hc] at h
      simpa [finalize_chunk_metadata] using h.symm
    | cons a as =>
      rw [hc] at h
      simp [finalize_chunk_metadata] at h

/-- Closed instantiation of c2_finalization_always_raises at the empty
document, the one input on which the pipeline returns at all. -/
theorem c2_finalization_always_raises_witness :
    chunk defaultConfig capErr "" = Except.ok [] ∧ ([] : List Document) = [] :=
  ⟨rfl, c2_finalization_always_raises.2 defaultConfig capErr "" [] rfl⟩

/-- C3: the claimed content-preservation invariant is unobservable: on
any input that yields at least one fragment — here the one-word document
"hello" under the default configuration and any semantic capability —
the pipeline raises NameError instead of returning chunks, so no chunk
contents exist to rejoin into the original text. -/
theorem c3_no_chunks_are_ever_returned :
    ∀ cap : SemanticCap,
      chunk defaultConfig cap "hello" = Except.error PyErr.nameError := by
  intro cap; rfl

/-- C4 counterexample: a configuration with min_chunk_size = 500 ≥
max_chunk_size = 200 is invalid per the claim, yet a pipeline invocation
on it does not fail — on empty input it returns the empty list, so no
configuration error is ever signaled to the caller. -/
theorem c4_counterexample_invalid_config_accepted :
    (⟨200, 500, 6⟩ : MarkdownChunkerConfig).max_chunk_size ≤
      (⟨200, 500, 6⟩ : MarkdownChunkerConfig).min_chunk_size ∧
    chunk ⟨200, 500, 6⟩ capErr "" = Except.ok [] := by
  exact ⟨by norm_num, rfl⟩

/-- C4 as amended: the code never validates the configuration. The only
error a pipeline invocation can signal, for any configuration valid or
not, is the NameError of metadata finalization; and with empty input and
max_header_level ≥ 1 the invocation returns an empty list successfully,
even when min_chunk_size ≥ max_chunk_size or any other field is out of
the claimed range. -/
theorem c4_amended_no_config_validation :
    (∀ cfg cap text e, chunk cfg cap text = Except.error e → e = PyErr.nameError) ∧
    (∀ cfg cap, 1 ≤ cfg.max_header_level → chunk cfg cap "" = Except.ok []) := by
  constructor
  · intro cfg cap text e h
    unfold chunk at h
    simp only [] at h
    cases hc : combine_undersized_chunks cfg
        (split_oversized_chunks cfg cap (split_by_headers cfg text 1)) with
    | nil =>
      rw [hc] at h
      simp [finalize_chunk_metadata] at h
    | cons a as =>
      rw [hc] at h
      simpa [finalize_chunk_metadata] using h.symm
  · intro cfg cap h1
    obtain ⟨k, hk⟩ : ∃ k, (cfg.max_header_level + 1 - 1).toNat = k + 1 :=
      ⟨(cfg.max_header_level - 1).toNat, by omega⟩
    have hsplit : split_by_headers cfg "" 1 = [] := by
      unfold split_by_headers
      rw [hk]
      unfold splitByHeadersGo
      simp only []
      have hms : markdownSplitText (headers_to_split_on 1) "" = [] := by decide
      rw [hms]
      rfl
    unfold chunk
    rw [hsplit]
    rfl

/-- Closed instantiation of c4_amended_no_config_validation: the error
on "x" is the NameError, and the default configuration on empty input
returns the empty list. -/
theorem c4_amended_no_config_validation_witness :
    chunk defaultConfig capErr "x" = Except.error PyErr.nameError ∧
    PyErr.nameError = PyErr.nameError ∧
    chunk defaultConfig capErr "" = Except.ok [] :=
  ⟨rfl,
    c4_amended_no_config_validation.1 defaultConfig capErr "x" PyErr.nameError rfl,
    c4_amended_no_config_validation.2 defaultConfig capErr (by norm_num [defaultConfig])⟩

/-- C5: split_semantically returns the fragment unmodified whenever the
capability raises, returns an empty result list, or returns groups that
all strip to nothing; and when the capability raises on every call the
whole oversized-splitting stage is the identity on its input list. -/
theorem c5_semantic_failure_degrades_to_identity :
    (∀ cfg cap c e,
      cap cfg.min_chunk_size cfg.max_chunk_size c.page_content = Except.error e →
      split_semantically cfg cap c = [c]) ∧
    (∀ cfg cap c,
      cap cfg.min_chunk_size cfg.max_chunk_size c.page_content = Except.ok [] →
      split_semantically cfg cap c = [c]) ∧
    (∀ cfg cap c groups rest,
      cap cfg.min_chunk_size cfg.max_chunk_size c.page_content =
        Except.ok (groups :: rest) →
      groupsToDocs c.metadata groups = [] →
      split_semantically cfg cap c = [c]) ∧
    (∀ cfg cap chunks,
      (∀ a b s, ∃ e, cap a b s = Except.error e) →
      split_oversized_chunks cfg cap chunks = chunks) := by
  refine ⟨?_, ?_, ?_, ?_⟩
  · intro cfg cap c e h
    unfold split_semantically
    rw [h]
  · intro cfg cap c h
    unfold split_semantically
    rw [h]
  · intro cfg cap c groups rest hcap hempty
    unfold split_semantically
    rw [hcap]
    simp [hempty]
  · intro cfg cap chunks hcap
    induction chunks with
    | nil => rfl
    | cons c rest ih =>
      unfold split_oversized_chunks
      rw [ih]
      obtain ⟨e, he⟩ := hcap cfg.min_chunk_size cfg.max_chunk_size c.page_content
      have hsem : split_semantically cfg cap c = [c] := by
        unfold split_semantically
        rw [he]
      rw [hsem]
      simp

/-- Closed instantiation of c5_semantic_failure_degrades_to_identity on
a concrete oversized fragment and the three concrete capabilities. -/
theorem c5_semantic_failure_degrades_to_identity_witness :
    capErr 500 2000 "t" = Except.error PyErr.exn ∧
    split_semantically defaultConfig capErr ⟨"t", []⟩ = [⟨"t", []⟩] ∧
    groupsToDocs [] [[""]] = [] ∧
    split_semantically defaultConfig capEmptyGroups ⟨"t", []⟩ = [⟨"t", []⟩] ∧
    split_oversized_chunks defaultConfig capErr [⟨"t", []⟩] = [⟨"t", []⟩] :=
  ⟨rfl,
    c5_semantic_failure_degrades_to_identity.1 defaultConfig capErr ⟨"t", []⟩
      PyErr.exn rfl,
    rfl,
    c5_semantic_failure_degrades_to_identity.2.2.1 defaultConfig capEmptyGroups
      ⟨"t", []⟩ [[""]] [] rfl rfl,
    c5_semantic_failure_degrades_to_identity.2.2.2 defaultConfig capErr [⟨"t", []⟩]
      (fun _ _ _ => ⟨PyErr.exn, rfl⟩)⟩

/-- Definition following the spec's words for claim C6 (not the source):
the longest sequence of (level, title) pairs identical in both header
paths, compared level by level from the root. -/
def specCommonHeaderPrefix : List (Int × String) → List (Int × String) →
    List (Int × String)
  | a :: as, b :: bs => if a = b then a :: specCommonHeaderPrefix as bs else []
  | _, _ => []

/-- C6 counterexample: two undersized chunks whose header paths agree at
levels 1 and 3 but differ at level 2. The merged metadata keeps the
level-3 entry, while the longest common prefix of the two header paths
stops after level 1 — so the merged metadata is not the common prefix
the claim describes. -/
theorem c6_counterexample_not_a_prefix :
    combine_undersized_chunks ⟨2000, 500, 6⟩
      [⟨"a", [("Header 1", "A"), ("Header 2", "B"), ("Header 3", "C")]⟩,
       ⟨"b", [("Header 1", "A"), ("Header 2", "X"), ("Header 3", "C")]⟩] =
      [⟨"a\n\nb", [("Header 1", "A"), ("Header 3", "C")]⟩] ∧
    specCommonHeaderPrefix
      (parse_headers_from_metadata
        [("Header 1", "A"), ("Header 2", "B"), ("Header 3", "C")])
      (parse_headers_from_metadata
        [("Header 1", "A"), ("Header 2", "X"), ("Header 3", "C")]) = [(1, "A")] ∧
    parse_headers_from_metadata [("Header 1", "A"), ("Header 3", "C")] ≠
      [(1, "A")] := by
  refine ⟨by decide, by decide, by decide⟩

/-- C6 as amended: a subsequent chunk is merged into the buffer iff
size(buffer) < min_chunk_size and size(buffer) + size(next) ≤
max_chunk_size; the merged content is buffer, two newlines, next; and
the merged metadata is the keyed intersection of the two dicts — the
entries of buffer's metadata whose key starts with "Header " and which
next's metadata maps to the same value — not the longest common prefix
of the header paths. -/
theorem c6_amended_merge_rule :
    (∀ cfg buffer next rest,
      combineLoop cfg buffer (next :: rest) =
        if (buffer.page_content.length : Int) < cfg.min_chunk_size ∧
            (buffer.page_content.length : Int) + (next.page_content.length : Int) ≤
              cfg.max_chunk_size then
          combineLoop cfg
            ⟨buffer.page_content ++ "\n\n" ++ next.page_content,
              get_common_metadata buffer.metadata next.metadata⟩ rest
        else buffer :: combineLoop cfg next rest) ∧
    (∀ cfg c1 c2,
      combine_undersized_chunks cfg [c1, c2] =
        if (c1.page_content.length : Int) < cfg.min_chunk_size ∧
            (c1.page_content.length : Int) + (c2.page_content.length : Int) ≤
              cfg.max_chunk_size then
          [⟨c1.page_content ++ "\n\n" ++ c2.page_content,
            get_common_metadata c1.metadata c2.metadata⟩]
        else [c1, c2]) ∧
    (∀ m1 m2 k v,
      (k, v) ∈ get_common_metadata m1 m2 ↔
        ((k, v) ∈ m1 ∧ pyStartsWith k "Header " = true ∧ dictGet? m2 k = some v)) := by
  refine ⟨fun cfg buffer next rest => rfl, ?_, ?_⟩
  · intro cfg c1 c2
    show combineLoop cfg c1 [c2] = _
    unfold combineLoop
    split
    · rfl
    · rfl
  · intro m1 m2 k v
    simp [get_common_metadata, List.mem_filter, and_assoc]

/-- Loop invariant for combine_undersized_chunks: the merge loop always
emits between one and one-plus-the-remaining-input chunks. -/
theorem combineLoop_length_bounds (cfg : MarkdownChunkerConfig) :
    ∀ (l : List Document) (b : Document),
      1 ≤ (combineLoop cfg b l).length ∧
      (combineLoop cfg b l).length ≤ l.length + 1 := by
  intro l
  induction l with
  | nil => intro b; simp [combineLoop]
  | cons next rest ih =>
    intro b
    unfold combineLoop
    split
    · have h := ih ⟨b.page_content ++ "\n\n" ++ next.page_content,
        get_common_metadata b.metadata next.metadata⟩
      simp only [List.length_cons]
      omega
    · have h := ih next
      simp only [List.length_cons]
      omega

/-- C7: the trailing buffer is flushed unconditionally (no size test on
the final flush), the merger maps empty input to empty output, and on N
≥ 1 fragments it emits between 1 and N chunks. -/
theorem c7_merger_bounds :
    (∀ cfg, combine_undersized_chunks cfg [] = []) ∧
    (∀ cfg b, combineLoop cfg b [] = [b]) ∧
    (∀ cfg chunks, chunks ≠ [] →
      1 ≤ (combine_undersized_chunks cfg chunks).length ∧
      (combine_undersized_chunks cfg chunks).length ≤ chunks.length) := by
  refine ⟨fun cfg => rfl, fun cfg b => rfl, ?_⟩
  intro cfg chunks hne
  cases chunks with
  | nil => exact absurd rfl hne
  | cons c rest =>
    have h := combineLoop_length_bounds cfg rest c
    simpa [combine_undersized_chunks, List.length_cons] using h

/-- Closed instantiation of c7_merger_bounds at a one-element input. -/
theorem c7_merger_bounds_witness :
    ([(⟨"a", []⟩ : Document)] ≠ []) ∧
    (1 ≤ (combine_undersized_chunks defaultConfig [⟨"a", []⟩]).length ∧
      (combine_undersized_chunks defaultConfig [⟨"a", []⟩]).length ≤
        [(⟨"a", []⟩ : Document)].length) :=
  ⟨by simp, c7_merger_bounds.2.2 defaultConfig [⟨"a", []⟩] (by simp)⟩

/-- C8: the oversized stage is exactly a flat map passing each fragment
of size at most max_chunk_size through unchanged and semantically
splitting the rest; on a successful capability call the result is the
processed groups (joined, null-stripped, whitespace-stripped, empties
discarded) unless they all vanish; and every produced document carries
the original fragment's metadata unchanged, a non-empty content, and the
processed content of one of the returned groups. -/
theorem c8_semantic_split_shape :
    (∀ cfg cap chunks,
      split_oversized_chunks cfg cap chunks =
        chunks.flatMap (fun c =>
          if (c.page_content.length : Int) > cfg.max_chunk_size then
            split_semantically cfg cap c
          else [c])) ∧
    (∀ cfg cap c groups rest,
      cap cfg.min_chunk_size cfg.max_chunk_size c.page_content =
        Except.ok (groups :: rest) →
      groupsToDocs c.metadata groups ≠ [] →
      split_semantically cfg cap c = groupsToDocs c.metadata groups) ∧
    (∀ meta groups d, d ∈ groupsToDocs meta groups →
      d.metadata = meta ∧ d.page_content ≠ "" ∧
      ∃ g ∈ groups, d.page_content = pyStrip (removeNulls (pyJoin "" g))) := by
  refine ⟨?_, ?_, ?_⟩
  · intro cfg cap chunks
    induction chunks with
    | nil => rfl
    | cons c rest ih => simp [split_oversized_chunks, ih, List.flatMap_cons]
  · intro cfg cap c groups rest hcap hne
    unfold split_semantically
    rw [hcap]
    simp only []
    rw [if_neg (by simpa [List.isEmpty_iff] using hne)]
  · intro meta groups d hd
    unfold groupsToDocs at hd
    rw [List.mem_filterMap] at hd
    obtain ⟨g, hg, heq⟩ := hd
    simp only [] at heq
    by_cases hc : pyStrip (removeNulls (pyJoin "" g)) = ""
    · rw [if_pos hc] at heq
      exact absurd heq (by simp)
    · rw [if_neg hc] at heq
      injection heq with h
      subst h
      exact ⟨rfl, hc, g, hg, rfl⟩

/-- Closed instantiation of c8_semantic_split_shape on a capability
returning one usable group and one group that strips away. -/
theorem c8_semantic_split_shape_witness :
    capTwoGroups 500 2000 "t" = Except.ok [[["hi "], ["\x00"]]] ∧
    groupsToDocs ([] : List (String × String)) [["hi "], ["\x00"]] ≠ [] ∧
    split_semantically defaultConfig capTwoGroups ⟨"t", []⟩ =
      groupsToDocs [] [["hi "], ["\x00"]] ∧
    ((⟨"hi", []⟩ : Document).metadata = [] ∧
      (⟨"hi", []⟩ : Document).page_content ≠ "" ∧
      ∃ g ∈ [["hi "], ["\x00"]],
        (⟨"hi", []⟩ : Document).page_content =
          pyStrip (removeNulls (pyJoin "" g))) :=
  ⟨rfl, by decide,
    c8_semantic_split_shape.2.1 defaultConfig capTwoGroups ⟨"t", []⟩
      [["hi "], ["\x00"]] [] rfl (by decide),
    c8_semantic_split_shape.2.2 [] [["hi "], ["\x00"]] ⟨"hi", []⟩ (by decide)⟩

/-- C9: parse_headers_from_metadata returns exactly the parseable
"Header n" entries of the metadata (a permutation of the filtered list),
sorted so that levels are ascending along the output; and an entry whose
level marker does not parse as an integer is skipped without effect on
the rest, never an error. -/
theorem c9_metadata_sorted_and_skipping :
    (∀ m, List.Perm (parse_headers_from_metadata m) (m.filterMap parseHeaderEntry)) ∧
    (∀ m, (parse_headers_from_metadata m).Pairwise
      (fun a b : Int × String => a.1 ≤ b.1)) ∧
    (∀ kv m, parseHeaderEntry kv = none →
      parse_headers_from_metadata (kv :: m) = parse_headers_from_metadata m) := by
  refine ⟨?_, ?_, ?_⟩
  · intro m
    exact List.perm_insertionSort headerLe _
  · intro m
    have hs := List.sorted_insertionSort headerLe (m.filterMap parseHeaderEntry)
    exact List.Pairwise.imp
      (fun {a b} h => by
        rcases h with h | ⟨h, _⟩
        · exact le_of_lt h
        · exact le_of_eq h)
      hs
  · intro kv m hkv
    unfold parse_headers_from_metadata
    rw [List.filterMap_cons_none hkv]

/-- Closed instantiation of c9_metadata_sorted_and_skipping: the entry
"Header z" has a non-numeric level marker and is skipped. -/
theorem c9_metadata_sorted_and_skipping_witness :
    parseHeaderEntry ("Header z", "W") = none ∧
    parse_headers_from_metadata [("Header z", "W"), ("Header 1", "A")] =
      parse_headers_from_metadata [("Header 1", "A")] :=
  ⟨by decide,
    c9_metadata_sorted_and_skipping.2.2 ("Header z", "W") [("Header 1", "A")]
      (by decide)⟩

/-- C10: whenever the parseable header entries of a chunk's metadata
carry pairwise-distinct levels — which holds for every metadata dict the
pipeline's splitter builds, since its keys are the distinct canonical
"Header i" names — the materialized header path is strictly increasing
in level; and the merger's get_common_metadata only ever selects a
subsequence of the first dict's entries, so it preserves that
distinctness. -/
theorem c10_header_path_strictly_increasing :
    (∀ m, ((m.filterMap parseHeaderEntry).map Prod.fst).Nodup →
      ((parse_headers_from_metadata m).map Prod.fst).Chain' (· < ·)) ∧
    (∀ m1 m2, ((get_common_metadata m1 m2).filterMap parseHeaderEntry).Sublist
      (m1.filterMap parseHeaderEntry)) ∧
    (∀ m1 m2, ((m1.filterMap parseHeaderEntry).map Prod.fst).Nodup →
      ((parse_headers_from_metadata (get_common_metadata m1 m2)).map
        Prod.fst).Chain' (· < ·)) := by
  have hmain : ∀ m, ((m.filterMap parseHeaderEntry).map Prod.fst).Nodup →
      ((parse_headers_from_metadata m).map Prod.fst).Chain' (· < ·) := by
    intro m hm
    have hperm : List.Perm (parse_headers_from_metadata m)
        (m.filterMap parseHeaderEntry) :=
      List.perm_insertionSort headerLe _
    have hnd : ((parse_headers_from_metadata m).map Prod.fst).Nodup :=
      ((hperm.map Prod.fst).nodup_iff).mpr hm
    have hsorted : (parse_headers_from_metadata m).Pairwise headerLe :=
      List.sorted_insertionSort headerLe _
    have hp1 : (parse_headers_from_metadata m).Pairwise
        (fun a b : Int × String => a.1 ≤ b.1) :=
      List.Pairwise.imp
        (fun {a b} h => by
          rcases h with h | ⟨h, _⟩
          · exact le_of_lt h
          · exact le_of_eq h)
        hsorted
    have hp2 : (parse_headers_from_metadata m).Pairwise
        (fun a b : Int × String => a.1 ≠ b.1) :=
      List.pairwise_map.mp hnd
    have hp3 : (parse_headers_from_metadata m).Pairwise
        (fun a b : Int × String => a.1 < b.1) :=
      (hp1.and hp2).imp (fun {a b} h => lt_of_le_of_ne h.1 h.2)
    exact List.Pairwise.chain' (List.pairwise_map.mpr hp3)
  have hsub : ∀ m1 m2,
      ((get_common_metadata m1 m2).filterMap parseHeaderEntry).Sublist
        (m1.filterMap parseHeaderEntry) := by
    intro m1 m2
    unfold get_common_metadata
    exact (List.filter_sublist _).filterMap _
  refine ⟨hmain, hsub, ?_⟩
  intro m1 m2 hm
  apply hmain
  exact List.Nodup.sublist ((hsub m1 m2).map Prod.fst) hm

/-- Closed instantiation of c10_header_path_strictly_increasing on
canonical metadata with distinct levels. -/
theorem c10_header_path_strictly_increasing_witness :
    (([("Header 2", "B"), ("Header 1", "A")].filterMap parseHeaderEntry).map
      Prod.fst).Nodup ∧
    ((parse_headers_from_metadata [("Header 2", "B"), ("Header 1", "A")]).map
      Prod.fst).Chain' (· < ·) ∧
    ((parse_headers_from_metadata
        (get_common_metadata [("Header 2", "B"), ("Header 1", "A")]
          [("Header 2", "B"), ("Header 3", "Z")])).map Prod.fst).Chain'
      (· < ·) :=
  ⟨by decide,
    c10_header_path_strictly_increasing.1 [("Header 2", "B"), ("Header 1", "A")]
      (by decide),
    c10_header_path_strictly_increasing.2.2 [("Header 2", "B"), ("Header 1", "A")]
      [("Header 2", "B"), ("Header 3", "Z")] (by decide)⟩
